import Mathlib

/-
Verification development for the univariate linear regression trainer
(src/linear-regression/univariate-linear-regression.c).

Embedding conventions:
  - C double values are embedded as rationals.  The double literal 0.00001
    is embedded as the rational 1/100000 it denotes.  IEEE rounding and NaN
    are outside the model; division by zero in the rational field yields 0.
  - The two IntVec buffers are embedded as lists of integers; vec_append
    becomes appending one element at the end of a list.
  - The settings loop reads already tokenized key and value strings; the
    libc conversion atof is a parameter of the model (a function from
    strings to rationals), and the double to int assignment used for the
    keys iterations and log-every truncates toward zero, as in C.
  - The training loop of main is embedded with explicit fuel equal to the
    number of times the loop body runs, which is iterations + 1 clamped at
    zero (for the C loop header: for i = 0; i <= iterations; i = i + 1).
    The C expression i % every is undefined behavior when every = 0; the
    embedded loop returns none in that case, at the first loop entry.
  - File opening and closing are not modeled; the model starts from the
    parsed input pairs.  After the argument and open checks, the program
    always returns 0, which the model records as exit code 0.
-/

namespace ULR

/-- Current model parameters, mirroring the C struct Weights
(a weight w and a bias b, both doubles). -/
structure Weights where
  w : ℚ
  b : ℚ
deriving DecidableEq

/-- Gradient of the mean squared error cost, mirroring the C function
gradient: it folds over the indices of x, accumulating the residual times
x over the first component and the bare residual over the second, then
divides both by the length of x. -/
def gradient (x y : List ℤ) (ws : Weights) : Weights :=
  let sums := (List.range x.length).foldl
    (fun acc i =>
      let f_wb : ℚ := ws.w * (x.getD i 0 : ℚ) + ws.b
      (acc.1 + (f_wb - (y.getD i 0 : ℚ)) * (x.getD i 0 : ℚ),
       acc.2 + (f_wb - (y.getD i 0 : ℚ))))
    (0, 0)
  ⟨sums.1 / (x.length : ℚ), sums.2 / (x.length : ℚ)⟩

/-- One update of the training loop body of main: compute the gradient at
the current weights and move both components against it, scaled by the
learning rate alpha. -/
def step (x y : List ℤ) (alpha : ℚ) (ws : Weights) : Weights :=
  let g := gradient x y ws
  ⟨ws.w - alpha * g.w, ws.b - alpha * g.b⟩

/-- Resolved training configuration, mirroring the local variables of main
that the settings loop may overwrite (w, b, alpha, iterations, every and
the output buffer; the empty output string means standard output). -/
structure Config where
  w : ℚ
  b : ℚ
  alpha : ℚ
  iterations : ℤ
  every : ℤ
  output : String
deriving DecidableEq

/-- Defaults set in main before the settings file is read:
w = 0.0, b = 0.0, alpha = 0.00001, iterations = 100000, every = 100 and an
empty output buffer (meaning standard output). -/
def defaultConfig : Config :=
  { w := 0, b := 0, alpha := 1 / 100000, iterations := 100000, every := 100,
    output := "" }

/-- Truncation toward zero of a rational, the C conversion applied when a
double returned by atof is assigned to the int variables iterations and
every. -/
def ratTrunc (q : ℚ) : ℤ :=
  if 0 ≤ q then ⌊q⌋ else ⌈q⌉

/-- One pass of the settings loop body of main: match the key against the
six recognized names and overwrite the corresponding field, or append an
unknown key warning (the C code prints it to the error stream). -/
def resolveStep (atof : String → ℚ) (acc : Config × List String)
    (kv : String × String) : Config × List String :=
  if kv.1 = "w" then ({ acc.1 with w := atof kv.2 }, acc.2)
  else if kv.1 = "b" then ({ acc.1 with b := atof kv.2 }, acc.2)
  else if kv.1 = "alpha" then ({ acc.1 with alpha := atof kv.2 }, acc.2)
  else if kv.1 = "iterations" then
    ({ acc.1 with iterations := ratTrunc (atof kv.2) }, acc.2)
  else if kv.1 = "log-every" then
    ({ acc.1 with every := ratTrunc (atof kv.2) }, acc.2)
  else if kv.1 = "output" then
    ({ acc.1 with output := kv.2.take 100 }, acc.2)
  else (acc.1, acc.2 ++ ["Unknown key: " ++ kv.1])

/-- Settings resolution: the settings loop of main folded over the stream
of tokenized key and value records, starting from the defaults. -/
def resolveConfig (atof : String → ℚ) (s : List (String × String)) :
    Config × List String :=
  s.foldl (resolveStep atof) (defaultConfig, [])

/-- Resolution of the optional settings source: when no settings file is
given, main keeps the defaults and prints no warning. -/
def resolveOpt (atof : String → ℚ) :
    Option (List (String × String)) → Config × List String
  | none => (defaultConfig, [])
  | some s => resolveConfig atof s

/-- The six keys the settings loop of main recognizes. -/
def recognizedKeys : List String :=
  ["w", "b", "alpha", "iterations", "log-every", "output"]

/-- Value of the last record of the stream carrying the given key, if any.
This is the specification side description of sequential overwrite. -/
def lastVal (key : String) : List (String × String) → Option String
  | [] => none
  | kv :: rest =>
      match lastVal key rest with
      | some v => some v
      | none => if kv.1 = key then some kv.2 else none

/-- Ingestion loop of main: for each parsed record, append its first
component to the x buffer and its second component to the y buffer. -/
def ingest (pairs : List (ℤ × ℤ)) : List ℤ × List ℤ :=
  pairs.foldl (fun acc p => (acc.1 ++ [p.1], acc.2 ++ [p.2])) ([], [])

/-- Training loop of main with explicit fuel: each pass computes the
updated weights, then evaluates i % every to decide whether to emit the
progress record for iteration i; the record carries the weights already
updated by this pass, exactly as the C code prints them after the update.
When every = 0 the C expression i % every is undefined behavior, modeled
by returning none. -/
def trainGo (x y : List ℤ) (alpha : ℚ) (every : ℤ) :
    ℕ → ℤ → Weights → List (ℤ × Weights) → Option (Weights × List (ℤ × Weights))
  | 0, _, ws, acc => some (ws, acc.reverse)
  | fuel + 1, i, ws, acc =>
      let ws2 := step x y alpha ws
      if every = 0 then none
      else
        trainGo x y alpha every fuel (i + 1) ws2
          (if i % every = 0 then (i, ws2) :: acc else acc)

/-- Training phase of main: run the loop body (iterations + 1) times when
iterations is non negative, and zero times otherwise, starting from
iteration index 0 and the configured initial weights. -/
def train (x y : List ℤ) (cfg : Config) :
    Option (Weights × List (ℤ × Weights)) :=
  trainGo x y cfg.alpha cfg.every (cfg.iterations + 1).toNat 0
    ⟨cfg.w, cfg.b⟩ []

/-- Observable outcome of a run that passed the argument and file open
checks: the exit code of main, the emitted progress records in order, the
unknown key warnings, and the final weights. -/
structure RunOutput where
  exitCode : ℕ
  records : List (ℤ × Weights)
  warnings : List String
  finalWeights : Weights
deriving DecidableEq

/-- Whole run model of main after the open checks: ingest the parsed input
pairs, resolve the optional settings, run the training loop, and return 0.
A none result models the undefined modulo by zero inside the loop. -/
def runModel (atof : String → ℚ) (pairs : List (ℤ × ℤ))
    (settings : Option (List (String × String))) : Option RunOutput :=
  let xy := ingest pairs
  let resolved := resolveOpt atof settings
  match train xy.1 xy.2 resolved.1 with
  | none => none
  | some (ws, recs) => some ⟨0, recs, resolved.2, ws⟩

/-- Permutation of a list of n integers by a permutation of the index
range: entry i of the result is the entry at index σ i of the input.
Used to state the permutation claims about the gradient. -/
def permuteL (n : ℕ) (σ : Equiv.Perm (Fin n)) (l : List ℤ) : List ℤ :=
  List.ofFn (fun i => l.getD (σ i) 0)

/-- Folding a pairwise accumulation over an index range computes the pair
of running sums, shifted by the initial accumulator. -/
lemma foldl_pair_add (f g : ℕ → ℚ) :
    ∀ (n : ℕ) (a b : ℚ),
      (List.range n).foldl (fun acc i => (acc.1 + f i, acc.2 + g i)) (a, b)
        = (a + ∑ i ∈ Finset.range n, f i, b + ∑ i ∈ Finset.range n, g i) := by
  intro n
  induction n with
  | zero => intro a b; simp
  | succ n ih =>
      intro a b
      rw [List.range_succ, List.foldl_append, ih, List.foldl_cons,
        List.foldl_nil, Finset.sum_range_succ, Finset.sum_range_succ]
      simp [add_assoc]

/-- The accumulation loop of the gradient function computes the two sums
of the specification, each divided by the length of x. -/
lemma gradient_eq_sum (x y : List ℤ) (ws : Weights) :
    gradient x y ws
      = ⟨(∑ i ∈ Finset.range x.length,
            (ws.w * (x.getD i 0 : ℚ) + ws.b - (y.getD i 0 : ℚ))
              * (x.getD i 0 : ℚ)) / (x.length : ℚ),
         (∑ i ∈ Finset.range x.length,
            (ws.w * (x.getD i 0 : ℚ) + ws.b - (y.getD i 0 : ℚ)))
           / (x.length : ℚ)⟩ := by
  have h := foldl_pair_add
    (fun i => (ws.w * (x.getD i 0 : ℚ) + ws.b - (y.getD i 0 : ℚ))
        * (x.getD i 0 : ℚ))
    (fun i => ws.w * (x.getD i 0 : ℚ) + ws.b - (y.getD i 0 : ℚ))
    x.length 0 0
  simp only [gradient]
  rw [h]
  simp

/-- Gradient in terms of sums over the finite index type, for a list of
known length n. -/
lemma gradient_fin (n : ℕ) (x y : List ℤ) (hx : x.length = n)
    (ws : Weights) :
    gradient x y ws
      = ⟨(∑ i : Fin n,
            (ws.w * (x.getD i 0 : ℚ) + ws.b - (y.getD i 0 : ℚ))
              * (x.getD i 0 : ℚ)) / (n : ℚ),
         (∑ i : Fin n,
            (ws.w * (x.getD i 0 : ℚ) + ws.b - (y.getD i 0 : ℚ))) / (n : ℚ)⟩ := by
  subst hx
  rw [gradient_eq_sum]
  rw [Finset.sum_range fun i =>
    (ws.w * (x.getD i 0 : ℚ) + ws.b - (y.getD i 0 : ℚ)) * (x.getD i 0 : ℚ)]
  rw [Finset.sum_range fun i =>
    ws.w * (x.getD i 0 : ℚ) + ws.b - (y.getD i 0 : ℚ)]

/-- Length of a permuted list is the length of the index range. -/
lemma permuteL_length (n : ℕ) (σ : Equiv.Perm (Fin n)) (l : List ℤ) :
    (permuteL n σ l).length = n := by
  simp [permuteL]

/-- Reading the permuted list at index i reads the original list at index
σ i. -/
lemma permuteL_getD (n : ℕ) (σ : Equiv.Perm (Fin n)) (l : List ℤ)
    (i : Fin n) : (permuteL n σ l).getD i 0 = l.getD (σ i) 0 := by
  have hlt : (i : ℕ) < (permuteL n σ l).length := by
    rw [permuteL_length]; exact i.isLt
  rw [List.getD_eq_getElem _ _ hlt]
  simp [permuteL]

/-- Splitting a filterMap over an index range at the front, when the head
index produces a value. -/
lemma filterMap_range_succ_some {α : Type} (g : ℕ → Option α) (n : ℕ)
    (b : α) (h : g 0 = some b) :
    (List.range (n + 1)).filterMap g
      = b :: (List.range n).filterMap (g ∘ Nat.succ) := by
  rw [List.range_succ_eq_map, List.filterMap_cons_some h, List.filterMap_map]

/-- Splitting a filterMap over an index range at the front, when the head
index produces nothing. -/
lemma filterMap_range_succ_none {α : Type} (g : ℕ → Option α) (n : ℕ)
    (h : g 0 = none) :
    (List.range (n + 1)).filterMap g
      = (List.range n).filterMap (g ∘ Nat.succ) := by
  rw [List.range_succ_eq_map, List.filterMap_cons_none h, List.filterMap_map]

/-- Characterization of the training loop when every is not zero: the run
succeeds, the final weights are fuel many update steps from the entry
weights, and the emitted records, in order, are the iterations divisible
by every, each carrying the weights with one more update applied than the
iteration index requires for its pre update state. -/
lemma trainGo_eq (x y : List ℤ) (alpha : ℚ) (every : ℤ) (h : every ≠ 0) :
    ∀ (fuel : ℕ) (i : ℤ) (ws : Weights) (acc : List (ℤ × Weights)),
      trainGo x y alpha every fuel i ws acc
        = some ((step x y alpha)^[fuel] ws,
            acc.reverse ++ (List.range fuel).filterMap (fun (k : ℕ) =>
              if (i + (k : ℤ)) % every = 0
              then some (i + (k : ℤ), (step x y alpha)^[k + 1] ws)
              else none)) := by
  intro fuel
  induction fuel with
  | zero =>
      intro i ws acc
      simp [trainGo]
  | succ fuel ih =>
      intro i ws acc
      simp only [trainGo, if_neg h]
      rw [ih]
      have hfun :
          ((fun k : ℕ =>
              if (i + (k : ℤ)) % every = 0
              then some (i + (k : ℤ), (step x y alpha)^[k + 1] ws)
              else none) ∘ Nat.succ)
            = (fun k : ℕ =>
                if (i + 1 + (k : ℤ)) % every = 0
                then some (i + 1 + (k : ℤ),
                  (step x y alpha)^[k + 1] (step x y alpha ws))
                else none) := by
        funext k
        simp only [Function.comp_apply, Nat.succ_eq_add_one, Nat.cast_add,
          Nat.cast_one]
        have h1 : i + ((k : ℤ) + 1) = i + 1 + (k : ℤ) := by ring
        rw [h1, Function.iterate_succ_apply]
      refine congrArg some (Prod.ext ?_ ?_)
      · exact (Function.iterate_succ_apply (step x y alpha) fuel ws).symm
      · by_cases hc : i % every = 0
        · have h0 : (fun (k : ℕ) =>
              if (i + (k : ℤ)) % every = 0
              then some (i + (k : ℤ), (step x y alpha)^[k + 1] ws)
              else none) 0 = some (i, step x y alpha ws) := by
            simp [hc]
          rw [if_pos hc, List.reverse_cons,
            filterMap_range_succ_some _ fuel _ h0, hfun,
            List.append_assoc, List.singleton_append]
        · have h0 : (fun (k : ℕ) =>
              if (i + (k : ℤ)) % every = 0
              then some (i + (k : ℤ), (step x y alpha)^[k + 1] ws)
              else none) 0 = none := by
            simp [hc]
          rw [if_neg hc, filterMap_range_succ_none _ fuel h0, hfun]

/-- Characterization of the training phase when every is not zero. -/
lemma train_eq (x y : List ℤ) (cfg : Config) (h : cfg.every ≠ 0) :
    train x y cfg
      = some ((step x y cfg.alpha)^[(cfg.iterations + 1).toNat] ⟨cfg.w, cfg.b⟩,
          (List.range (cfg.iterations + 1).toNat).filterMap (fun (k : ℕ) =>
            if (k : ℤ) % cfg.every = 0
            then some ((k : ℤ), (step x y cfg.alpha)^[k + 1] ⟨cfg.w, cfg.b⟩)
            else none)) := by
  rw [train, trainGo_eq x y cfg.alpha cfg.every h]
  simp

/-- Generalized ingestion fold: appending the components of each record to
the two accumulating buffers produces the componentwise projections. -/
lemma ingest_go :
    ∀ (pairs : List (ℤ × ℤ)) (a b : List ℤ),
      pairs.foldl (fun acc p => (acc.1 ++ [p.1], acc.2 ++ [p.2])) (a, b)
        = (a ++ pairs.map Prod.fst, b ++ pairs.map Prod.snd) := by
  intro pairs
  induction pairs with
  | nil => intro a b; simp
  | cons p rest ih =>
      intro a b
      rw [List.foldl_cons, ih]
      simp

/-- Ingestion produces exactly the two componentwise projections of the
parsed records. -/
lemma ingest_eq (pairs : List (ℤ × ℤ)) :
    ingest pairs = (pairs.map Prod.fst, pairs.map Prod.snd) := by
  rw [ingest, ingest_go]
  simp

/-- The w field after the settings fold is the converted value of the last
record with key w, or the entry value when no such record exists. -/
lemma foldl_field_w (atof : String → ℚ) :
    ∀ (s : List (String × String)) (p : Config × List String),
      ((s.foldl (resolveStep atof) p).1).w
        = match lastVal "w" s with
          | some v => atof v
          | none => p.1.w := by
  intro s
  induction s with
  | nil => intro p; rfl
  | cons kv rest ih =>
      intro p
      rw [List.foldl_cons, ih, lastVal]
      cases hl : lastVal "w" rest with
      | some v => rfl
      | none =>
          by_cases hk : kv.1 = "w"
          · rw [if_pos hk]
            simp [resolveStep, hk]
          · rw [if_neg hk]
            simp only [resolveStep]
            split_ifs <;> rfl

/-- The b field after the settings fold is the converted value of the last
record with key b, or the entry value when no such record exists. -/
lemma foldl_field_b (atof : String → ℚ) :
    ∀ (s : List (String × String)) (p : Config × List String),
      ((s.foldl (resolveStep atof) p).1).b
        = match lastVal "b" s with
          | some v => atof v
          | none => p.1.b := by
  intro s
  induction s with
  | nil => intro p; rfl
  | cons kv rest ih =>
      intro p
      rw [List.foldl_cons, ih, lastVal]
      cases hl : lastVal "b" rest with
      | some v => rfl
      | none =>
          by_cases hk : kv.1 = "b"
          · rw [if_pos hk]
            simp [resolveStep, hk]
          · rw [if_neg hk]
            simp only [resolveStep]
            split_ifs <;> rfl

/-- The alpha field after the settings fold is the converted value of the
last record with key alpha, or the entry value when no such record
exists. -/
lemma foldl_field_alpha (atof : String → ℚ) :
    ∀ (s : List (String × String)) (p : Config × List String),
      ((s.foldl (resolveStep atof) p).1).alpha
        = match lastVal "alpha" s with
          | some v => atof v
          | none => p.1.alpha := by
  intro s
  induction s with
  | nil => intro p; rfl
  | cons kv rest ih =>
      intro p
      rw [List.foldl_cons, ih, lastVal]
      cases hl : lastVal "alpha" rest with
      | some v => rfl
      | none =>
          by_cases hk : kv.1 = "alpha"
          · rw [if_pos hk]
            simp [resolveStep, hk]
          · rw [if_neg hk]
            simp only [resolveStep]
            split_ifs <;> rfl

/-- The iterations field after the settings fold is the converted and
truncated value of the last record with key iterations, or the entry
value when no such record exists. -/
lemma foldl_field_iterations (atof : String → ℚ) :
    ∀ (s : List (String × String)) (p : Config × List String),
      ((s.foldl (resolveStep atof) p).1).iterations
        = match lastVal "iterations" s with
          | some v => ratTrunc (atof v)
          | none => p.1.iterations := by
  intro s
  induction s with
  | nil => intro p; rfl
  | cons kv rest ih =>
      intro p
      rw [List.foldl_cons, ih, lastVal]
      cases hl : lastVal "iterations" rest with
      | some v => rfl
      | none =>
          by_cases hk : kv.1 = "iterations"
          · rw [if_pos hk]
            simp [resolveStep, hk]
          · rw [if_neg hk]
            simp only [resolveStep]
            split_ifs <;> rfl

/-- The every field after the settings fold is the converted and truncated
value of the last record with key log-every, or the entry value when no
such record exists. -/
lemma foldl_field_every (atof : String → ℚ) :
    ∀ (s : List (String × String)) (p : Config × List String),
      ((s.foldl (resolveStep atof) p).1).every
        = match lastVal "log-every" s with
          | some v => ratTrunc (atof v)
          | none => p.1.every := by
  intro s
  induction s with
  | nil => intro p; rfl
  | cons kv rest ih =>
      intro p
      rw [List.foldl_cons, ih, lastVal]
      cases hl : lastVal "log-every" rest with
      | some v => rfl
      | none =>
          by_cases hk : kv.1 = "log-every"
          · rw [if_pos hk]
            simp [resolveStep, hk]
          · rw [if_neg hk]
            simp only [resolveStep]
            split_ifs <;> rfl

/-- The output field after the settings fold is the value of the last
record with key output truncated to the buffer limit, or the entry value
when no such record exists. -/
lemma foldl_field_output (atof : String → ℚ) :
    ∀ (s : List (String × String)) (p : Config × List String),
      ((s.foldl (resolveStep atof) p).1).output
        = match lastVal "output" s with
          | some v => v.take 100
          | none => p.1.output := by
  intro s
  induction s with
  | nil => intro p; rfl
  | cons kv rest ih =>
      intro p
      rw [List.foldl_cons, ih, lastVal]
      cases hl : lastVal "output" rest with
      | some v => rfl
      | none =>
          by_cases hk : kv.1 = "output"
          · rw [if_pos hk]
            simp [resolveStep, hk]
          · rw [if_neg hk]
            simp only [resolveStep]
            split_ifs <;> rfl

/-- A settings record with a recognized key appends no warning. -/
lemma resolveStep_warn_recognized (atof : String → ℚ)
    (p : Config × List String) (kv : String × String)
    (hk : kv.1 ∈ recognizedKeys) : (resolveStep atof p kv).2 = p.2 := by
  simp only [recognizedKeys, List.mem_cons, List.mem_singleton,
    List.not_mem_nil, or_false] at hk
  rcases hk with h | h | h | h | h | h <;> simp [resolveStep, h]

/-- A settings record with an unrecognized key leaves the configuration
unchanged and appends exactly the unknown key warning. -/
lemma resolveStep_unrecognized (atof : String → ℚ)
    (p : Config × List String) (kv : String × String)
    (hk : kv.1 ∉ recognizedKeys) :
    resolveStep atof p kv = (p.1, p.2 ++ ["Unknown key: " ++ kv.1]) := by
  simp only [recognizedKeys, List.mem_cons, List.mem_singleton,
    List.not_mem_nil, or_false, not_or] at hk
  simp [resolveStep, hk.1, hk.2.1, hk.2.2.1, hk.2.2.2.1, hk.2.2.2.2.1,
    hk.2.2.2.2.2]

/-- The warning list after the settings fold extends the entry warnings by
one unknown key message per unrecognized record, in stream order. -/
lemma foldl_warnings (atof : String → ℚ) :
    ∀ (s : List (String × String)) (p : Config × List String),
      (s.foldl (resolveStep atof) p).2
        = p.2 ++ s.filterMap (fun kv =>
            if kv.1 ∈ recognizedKeys then none
            else some ("Unknown key: " ++ kv.1)) := by
  intro s
  induction s with
  | nil => intro p; simp
  | cons kv rest ih =>
      intro p
      rw [List.foldl_cons, ih, List.filterMap_cons]
      by_cases hk : kv.1 ∈ recognizedKeys
      · rw [resolveStep_warn_recognized atof p kv hk]
        simp [hk]
      · rw [resolveStep_unrecognized atof p kv hk]
        simp [hk]

/-- A filterMap whose function always succeeds is a map. -/
lemma filterMap_always_some {α β : Type} (f : α → β) (l : List α) :
    l.filterMap (fun a => some (f a)) = l.map f := by
  induction l with
  | nil => rfl
  | cons a t ih => simp [List.filterMap_cons, ih]

/-- The record list produced by a loop that runs at least once is not
empty, because iteration 0 always satisfies the logging condition. -/
lemma filterMap_log_ne_nil (x y : List ℤ) (alpha : ℚ) (every : ℤ)
    (init : Weights) (m : ℕ) :
    (List.range (m + 1)).filterMap (fun (k : ℕ) =>
        if (k : ℤ) % every = 0
        then some ((k : ℤ), (step x y alpha)^[k + 1] init)
        else none) ≠ [] := by
  have h0 : (fun (k : ℕ) =>
      if (k : ℤ) % every = 0
      then some ((k : ℤ), (step x y alpha)^[k + 1] init)
      else none) 0 = some ((0 : ℤ), (step x y alpha)^[0 + 1] init) := by
    simp
  rw [filterMap_range_succ_some _ m _ h0]
  exact List.cons_ne_nil _ _

/-- C2: for every pair of series of equal positive length n and every
parameter pair, the gradient function returns the sum of residuals times
inputs divided by n and the sum of residuals divided by n, with no factor
of 2. -/
theorem C2_gradient_formula (x y : List ℤ) (w b : ℚ) (n : ℕ)
    (hx : x.length = n) (hy : y.length = n) (hn : 0 < n) :
    gradient x y ⟨w, b⟩
      = ⟨(∑ i ∈ Finset.range n,
            (w * (x.getD i 0 : ℚ) + b - (y.getD i 0 : ℚ)) * (x.getD i 0 : ℚ))
              / (n : ℚ),
         (∑ i ∈ Finset.range n,
            (w * (x.getD i 0 : ℚ) + b - (y.getD i 0 : ℚ))) / (n : ℚ)⟩ := by
  subst hx
  exact gradient_eq_sum x y ⟨w, b⟩

/-- C2 witness at a concrete input. -/
theorem C2_gradient_formula_witness :
    ([1, 2] : List ℤ).length = 2 ∧ ([3, 5] : List ℤ).length = 2 ∧ 0 < 2 ∧
    gradient [1, 2] [3, 5] ⟨1, 1⟩
      = ⟨(∑ i ∈ Finset.range 2,
            (1 * (([1, 2] : List ℤ).getD i 0 : ℚ) + 1
                - (([3, 5] : List ℤ).getD i 0 : ℚ))
              * (([1, 2] : List ℤ).getD i 0 : ℚ)) / ((2 : ℕ) : ℚ),
         (∑ i ∈ Finset.range 2,
            (1 * (([1, 2] : List ℤ).getD i 0 : ℚ) + 1
                - (([3, 5] : List ℤ).getD i 0 : ℚ))) / ((2 : ℕ) : ℚ)⟩ :=
  ⟨rfl, rfl, by decide, C2_gradient_formula [1, 2] [3, 5] 1 1 2 rfl rfl (by decide)⟩

/-- C5: when every target lies exactly on the line with slope wstar and
intercept bstar, the gradient at these parameters is exactly zero. -/
theorem C5_perfect_fit_zero_gradient (x y : List ℤ) (wstar bstar : ℚ)
    (hlen : x.length = y.length) (hpos : 0 < x.length)
    (hfit : ∀ i, i < x.length →
      ((y.getD i 0 : ℚ)) = wstar * (x.getD i 0 : ℚ) + bstar) :
    gradient x y ⟨wstar, bstar⟩ = ⟨0, 0⟩ := by
  rw [gradient_eq_sum]
  have h1 : ∀ i ∈ Finset.range x.length,
      ((⟨wstar, bstar⟩ : Weights).w * (x.getD i 0 : ℚ)
          + (⟨wstar, bstar⟩ : Weights).b - (y.getD i 0 : ℚ))
        * (x.getD i 0 : ℚ) = 0 := by
    intro i hi
    rw [Finset.mem_range] at hi
    rw [hfit i hi]
    ring
  have h2 : ∀ i ∈ Finset.range x.length,
      (⟨wstar, bstar⟩ : Weights).w * (x.getD i 0 : ℚ)
          + (⟨wstar, bstar⟩ : Weights).b - (y.getD i 0 : ℚ) = 0 := by
    intro i hi
    rw [Finset.mem_range] at hi
    rw [hfit i hi]
    ring
  rw [Finset.sum_eq_zero h1, Finset.sum_eq_zero h2, zero_div]

/-- C5 witness at a concrete input on the line with slope 2 and
intercept 1. -/
theorem C5_perfect_fit_zero_gradient_witness :
    ([1, 2] : List ℤ).length = ([3, 5] : List ℤ).length ∧
    0 < ([1, 2] : List ℤ).length ∧
    gradient [1, 2] [3, 5] ⟨2, 1⟩ = ⟨0, 0⟩ :=
  ⟨rfl, by decide,
    C5_perfect_fit_zero_gradient [1, 2] [3, 5] 2 1 rfl (by decide)
      (by
        intro i hi
        simp only [List.length_cons, List.length_nil] at hi
        interval_cases i <;> norm_num)⟩

/-- C6: permuting both series by the same index permutation leaves the
gradient unchanged, and permuting only one of the two series does not in
general (witnessed by swapping only y on a concrete input). -/
theorem C6_permutation_invariance :
    (∀ (n : ℕ) (σ : Equiv.Perm (Fin n)) (x y : List ℤ) (ws : Weights),
        x.length = n → y.length = n →
        gradient (permuteL n σ x) (permuteL n σ y) ws = gradient x y ws)
    ∧ gradient [0, 1] (permuteL 2 (Equiv.swap 0 1) [1, 0]) ⟨0, 0⟩
        ≠ gradient [0, 1] [1, 0] ⟨0, 0⟩ := by
  constructor
  · intro n σ x y ws hx hy
    rw [gradient_fin n (permuteL n σ x) (permuteL n σ y)
        (permuteL_length n σ x) ws,
      gradient_fin n x y hx ws]
    have e1 : (∑ i : Fin n,
        (ws.w * ((permuteL n σ x).getD (i : ℕ) 0 : ℚ) + ws.b
            - ((permuteL n σ y).getD (i : ℕ) 0 : ℚ))
          * ((permuteL n σ x).getD (i : ℕ) 0 : ℚ))
        = ∑ i : Fin n,
            (ws.w * (x.getD ((σ i : Fin n) : ℕ) 0 : ℚ) + ws.b
                - (y.getD ((σ i : Fin n) : ℕ) 0 : ℚ))
              * (x.getD ((σ i : Fin n) : ℕ) 0 : ℚ) :=
      Finset.sum_congr rfl fun i _ => by
        rw [permuteL_getD, permuteL_getD]
    have e2 : (∑ i : Fin n,
        (ws.w * ((permuteL n σ x).getD (i : ℕ) 0 : ℚ) + ws.b
            - ((permuteL n σ y).getD (i : ℕ) 0 : ℚ)))
        = ∑ i : Fin n,
            (ws.w * (x.getD ((σ i : Fin n) : ℕ) 0 : ℚ) + ws.b
                - (y.getD ((σ i : Fin n) : ℕ) 0 : ℚ)) :=
      Finset.sum_congr rfl fun i _ => by
        rw [permuteL_getD, permuteL_getD]
    rw [e1, e2,
      Equiv.sum_comp σ (fun j : Fin n =>
        (ws.w * (x.getD (j : ℕ) 0 : ℚ) + ws.b - (y.getD (j : ℕ) 0 : ℚ))
          * (x.getD (j : ℕ) 0 : ℚ)),
      Equiv.sum_comp σ (fun j : Fin n =>
        ws.w * (x.getD (j : ℕ) 0 : ℚ) + ws.b - (y.getD (j : ℕ) 0 : ℚ))]
  · have hperm : permuteL 2 (Equiv.swap 0 1) [1, 0] = [0, 1] := by decide
    have hr2 : List.range 2 = [0, 1] := by decide
    rw [hperm]
    norm_num [gradient, hr2]

/-- C6 witness at a concrete input. -/
theorem C6_permutation_invariance_witness :
    gradient (permuteL 2 (Equiv.swap 0 1) [3, 4])
        (permuteL 2 (Equiv.swap 0 1) [5, 6]) ⟨1, 1⟩
      = gradient [3, 4] [5, 6] ⟨1, 1⟩ :=
  C6_permutation_invariance.1 2 (Equiv.swap 0 1) [3, 4] [5, 6] ⟨1, 1⟩
    rfl rfl

/-- C7: after consuming any prefix of the input records, the two buffers
have equal length, and the entry at index i of each buffer comes from
input record i. -/
theorem C7_ingest_pairing (pairs : List (ℤ × ℤ)) (k : ℕ) :
    (ingest (pairs.take k)).1.length = (ingest (pairs.take k)).2.length ∧
    ∀ i, i < (pairs.take k).length →
      (ingest (pairs.take k)).1.getD i 0 = (pairs.getD i (0, 0)).1 ∧
      (ingest (pairs.take k)).2.getD i 0 = (pairs.getD i (0, 0)).2 := by
  rw [ingest_eq]
  constructor
  · simp
  · intro i hi
    have hip : i < pairs.length :=
      lt_of_lt_of_le hi (by rw [List.length_take]; exact min_le_right _ _)
    constructor
    · rw [List.getD_eq_getElem _ _ (by simpa using hi),
        List.getD_eq_getElem _ _ hip]
      simp
    · rw [List.getD_eq_getElem _ _ (by simpa using hi),
        List.getD_eq_getElem _ _ hip]
      simp

/-- C7 witness at a concrete input. -/
theorem C7_ingest_pairing_witness :
    (ingest (([((1 : ℤ), (2 : ℤ)), (3, 4)]).take 1)).1.length
        = (ingest (([((1 : ℤ), (2 : ℤ)), (3, 4)]).take 1)).2.length ∧
    ((ingest (([((1 : ℤ), (2 : ℤ)), (3, 4)]).take 1)).1.getD 0 0
        = (([((1 : ℤ), (2 : ℤ)), (3, 4)]).getD 0 (0, 0)).1 ∧
      (ingest (([((1 : ℤ), (2 : ℤ)), (3, 4)]).take 1)).2.getD 0 0
        = (([((1 : ℤ), (2 : ℤ)), (3, 4)]).getD 0 (0, 0)).2) :=
  ⟨(C7_ingest_pairing [((1 : ℤ), (2 : ℤ)), (3, 4)] 1).1,
    (C7_ingest_pairing [((1 : ℤ), (2 : ℤ)), (3, 4)] 1).2 0 (by decide)⟩

/-- C1 counterexample: a concrete run whose initial configured parameters
are (0, 0) while the record emitted at iteration 0 reports (2, 2), the
values after the first update. -/
theorem C1_pre_update_snapshot_cex :
    (resolveOpt (fun t => if t = "1" then (1 : ℚ) else 0)
        (some [("alpha", "1"), ("iterations", "0"), ("log-every", "1")])).1.w
      = 0 ∧
    (resolveOpt (fun t => if t = "1" then (1 : ℚ) else 0)
        (some [("alpha", "1"), ("iterations", "0"), ("log-every", "1")])).1.b
      = 0 ∧
    runModel (fun t => if t = "1" then (1 : ℚ) else 0) [(1, 2)]
        (some [("alpha", "1"), ("iterations", "0"), ("log-every", "1")])
      = some ⟨0, [(0, ⟨2, 2⟩)], [], ⟨2, 2⟩⟩ ∧
    ((⟨2, 2⟩ : Weights) ≠ (⟨0, 0⟩ : Weights)) := by
  refine ⟨by decide, by decide, ?_, by decide⟩
  have hstep : step [1] [2] (1 : ℚ) ⟨0, 0⟩ = ⟨2, 2⟩ := by
    have hr1 : List.range 1 = [0] := by decide
    norm_num [step, gradient, hr1]
  have hing : ingest [((1 : ℤ), (2 : ℤ))] = ([1], [2]) := by decide
  have hcfg : resolveOpt (fun t => if t = "1" then (1 : ℚ) else 0)
      (some [("alpha", "1"), ("iterations", "0"), ("log-every", "1")])
      = (⟨0, 0, 1, 0, 1, ""⟩, []) := by decide
  have hr1 : List.range 1 = [0] := by decide
  simp only [runModel, hing, hcfg]
  rw [train_eq [1] [2] ⟨0, 0, 1, 0, 1, ""⟩ (by decide)]
  simp [hr1, hstep]

/-- C1 as the code has it: when every is not zero, the training phase
emits, for each logged iteration k, the parameters with k plus one update
steps applied, that is the post update values, not the pre update
snapshot. -/
theorem C1_records_post_update (x y : List ℤ) (cfg : Config)
    (h : cfg.every ≠ 0) :
    train x y cfg
      = some ((step x y cfg.alpha)^[(cfg.iterations + 1).toNat] ⟨cfg.w, cfg.b⟩,
          (List.range (cfg.iterations + 1).toNat).filterMap (fun (k : ℕ) =>
            if (k : ℤ) % cfg.every = 0
            then some ((k : ℤ), (step x y cfg.alpha)^[k + 1] ⟨cfg.w, cfg.b⟩)
            else none)) :=
  train_eq x y cfg h

/-- C1 witness at a concrete input. -/
theorem C1_records_post_update_witness :
    ((⟨0, 0, 1, 0, 1, ""⟩ : Config).every ≠ 0) ∧
    train [1] [2] ⟨0, 0, 1, 0, 1, ""⟩
      = some ((step [1] [2] (1 : ℚ))^[1] ⟨0, 0⟩,
          (List.range 1).filterMap (fun (k : ℕ) =>
            if (k : ℤ) % 1 = 0
            then some ((k : ℤ), (step [1] [2] (1 : ℚ))^[k + 1] ⟨0, 0⟩)
            else none)) :=
  ⟨by decide, C1_records_post_update [1] [2] ⟨0, 0, 1, 0, 1, ""⟩ (by decide)⟩

/-- C3 counterexample: a concrete run on an empty input stream that still
enters the training loop, emits three progress records and exits with
status 0, instead of failing before training with no output. -/
theorem C3_empty_input_cex :
    runModel (fun t => if t = "2" then (2 : ℚ) else 1) []
        (some [("alpha", "1"), ("iterations", "2"), ("log-every", "1")])
      = some ⟨0, [(0, ⟨0, 0⟩), (1, ⟨0, 0⟩), (2, ⟨0, 0⟩)], [], ⟨0, 0⟩⟩ ∧
    (RunOutput.exitCode ⟨0, [(0, ⟨0, 0⟩), (1, ⟨0, 0⟩), (2, ⟨0, 0⟩)], [], ⟨0, 0⟩⟩ = 0) ∧
    (RunOutput.records ⟨0, [(0, ⟨0, 0⟩), (1, ⟨0, 0⟩), (2, ⟨0, 0⟩)], [], ⟨0, 0⟩⟩ ≠ []) := by
  refine ⟨?_, by decide, by decide⟩
  have hstep : step [] [] (1 : ℚ) ⟨0, 0⟩ = ⟨0, 0⟩ := by
    norm_num [step, gradient]
  have hcfg : resolveOpt (fun t => if t = "2" then (2 : ℚ) else 1)
      (some [("alpha", "1"), ("iterations", "2"), ("log-every", "1")])
      = (⟨0, 0, 1, 2, 1, ""⟩, []) := by decide
  have hr3 : List.range 3 = [0, 1, 2] := by decide
  simp only [runModel, hcfg]
  rw [show ingest [] = ([], []) from rfl]
  rw [train_eq [] [] ⟨0, 0, 1, 2, 1, ""⟩ (by decide)]
  simp [hr3, hstep, Function.iterate_succ_apply]

/-- C3 as the code has it: on an empty input stream no degenerate input
check fires; whenever the resolved every is not zero and the resolved
iteration count is non negative, the run enters the loop, exits with 0,
and emits at least the record of iteration 0. -/
theorem C3_empty_input_no_guard (atof : String → ℚ)
    (settings : Option (List (String × String)))
    (h1 : (resolveOpt atof settings).1.every ≠ 0)
    (h2 : 0 ≤ (resolveOpt atof settings).1.iterations) :
    ∃ out : RunOutput, runModel atof [] settings = some out ∧
      out.exitCode = 0 ∧ out.records ≠ [] := by
  obtain ⟨m, hm⟩ :
      ∃ m, ((resolveOpt atof settings).1.iterations + 1).toNat = m + 1 :=
    ⟨((resolveOpt atof settings).1.iterations + 1).toNat - 1, by omega⟩
  simp only [runModel]
  rw [train_eq _ _ _ h1]
  refine ⟨_, rfl, rfl, ?_⟩
  rw [hm]
  exact filterMap_log_ne_nil _ _ _ _ _ m

/-- C3 witness at a concrete input. -/
theorem C3_empty_input_no_guard_witness :
    ((resolveOpt (fun _ => (0 : ℚ)) none).1.every ≠ 0) ∧
    (0 ≤ (resolveOpt (fun _ => (0 : ℚ)) none).1.iterations) ∧
    ∃ out : RunOutput, runModel (fun _ => (0 : ℚ)) [] none = some out ∧
      out.exitCode = 0 ∧ out.records ≠ [] :=
  ⟨by decide, by decide,
    C3_empty_input_no_guard (fun _ => (0 : ℚ)) none (by decide) (by decide)⟩

/-- C4: in every run whose resolved configuration has a non negative
iteration count N and logging interval 1, the run succeeds and emits
exactly N + 1 records, one per iteration index 0 to N in increasing
order. -/
theorem C4_log_every_one_records (atof : String → ℚ)
    (pairs : List (ℤ × ℤ)) (settings : Option (List (String × String)))
    (N : ℤ) (hN : 0 ≤ N)
    (hit : (resolveOpt atof settings).1.iterations = N)
    (hev : (resolveOpt atof settings).1.every = 1) :
    ∃ out : RunOutput, runModel atof pairs settings = some out ∧
      out.records.length = N.toNat + 1 ∧
      out.records.map Prod.fst = (List.range (N.toNat + 1)).map (fun (k : ℕ) => (k : ℤ)) := by
  have h1 : (resolveOpt atof settings).1.every ≠ 0 := by
    rw [hev]; exact one_ne_zero
  have hfl : ((resolveOpt atof settings).1.iterations + 1).toNat = N.toNat + 1 := by
    omega
  simp only [runModel]
  rw [train_eq _ _ _ h1]
  refine ⟨_, rfl, ?_, ?_⟩
  · rw [hfl]
    simp only [hev, Int.emod_one, eq_self_iff_true, if_true]
    rw [filterMap_always_some]
    simp
  · rw [hfl]
    simp only [hev, Int.emod_one, eq_self_iff_true, if_true]
    rw [filterMap_always_some, List.map_map]
    rfl

/-- C4 witness at a concrete input. -/
theorem C4_log_every_one_records_witness :
    (0 ≤ (2 : ℤ)) ∧
    ((resolveOpt (fun t => if t = "2" then (2 : ℚ) else 1)
        (some [("iterations", "2"), ("log-every", "1")])).1.iterations = 2) ∧
    ((resolveOpt (fun t => if t = "2" then (2 : ℚ) else 1)
        (some [("iterations", "2"), ("log-every", "1")])).1.every = 1) ∧
    ∃ out : RunOutput,
      runModel (fun t => if t = "2" then (2 : ℚ) else 1) [(1, 2)]
          (some [("iterations", "2"), ("log-every", "1")]) = some out ∧
      out.records.length = (2 : ℤ).toNat + 1 ∧
      out.records.map Prod.fst
        = (List.range ((2 : ℤ).toNat + 1)).map (fun (k : ℕ) => (k : ℤ)) :=
  ⟨by decide, by decide, by decide,
    C4_log_every_one_records (fun t => if t = "2" then (2 : ℚ) else 1)
      [(1, 2)] (some [("iterations", "2"), ("log-every", "1")]) 2
      (by decide) (by decide) (by decide)⟩

/-- C8: the resolved configuration equals the documented defaults overlaid
with the last occurrence of each recognized key, and an unrecognized key
produces an unknown key warning while leaving the configuration
unchanged. -/
theorem C8_config_resolution (atof : String → ℚ)
    (s : List (String × String)) :
    (resolveConfig atof s).1.w
        = (match lastVal "w" s with | some v => atof v | none => (0 : ℚ)) ∧
    (resolveConfig atof s).1.b
        = (match lastVal "b" s with | some v => atof v | none => (0 : ℚ)) ∧
    (resolveConfig atof s).1.alpha
        = (match lastVal "alpha" s with
           | some v => atof v
           | none => (1 / 100000 : ℚ)) ∧
    (resolveConfig atof s).1.iterations
        = (match lastVal "iterations" s with
           | some v => ratTrunc (atof v)
           | none => (100000 : ℤ)) ∧
    (resolveConfig atof s).1.every
        = (match lastVal "log-every" s with
           | some v => ratTrunc (atof v)
           | none => (100 : ℤ)) ∧
    (resolveConfig atof s).1.output
        = (match lastVal "output" s with
           | some v => v.take 100
           | none => "") ∧
    (∀ kv, kv ∈ s → kv.1 ∉ recognizedKeys →
      ("Unknown key: " ++ kv.1) ∈ (resolveConfig atof s).2 ∧
      ∀ p : Config × List String,
        resolveStep atof p kv = (p.1, p.2 ++ ["Unknown key: " ++ kv.1])) := by
  refine ⟨?_, ?_, ?_, ?_, ?_, ?_, ?_⟩
  · rw [resolveConfig, foldl_field_w]
    cases lastVal "w" s <;> rfl
  · rw [resolveConfig, foldl_field_b]
    cases lastVal "b" s <;> rfl
  · rw [resolveConfig, foldl_field_alpha]
    cases lastVal "alpha" s <;> rfl
  · rw [resolveConfig, foldl_field_iterations]
    cases lastVal "iterations" s <;> rfl
  · rw [resolveConfig, foldl_field_every]
    cases lastVal "log-every" s <;> rfl
  · rw [resolveConfig, foldl_field_output]
    cases lastVal "output" s <;> rfl
  · intro kv hmem hk
    constructor
    · rw [resolveConfig, foldl_warnings]
      rw [List.nil_append, List.mem_filterMap]
      exact ⟨kv, hmem, by rw [if_neg hk]⟩
    · intro p
      exact resolveStep_unrecognized atof p kv hk

/-- C8 witness at a concrete input with a duplicate recognized key and an
unrecognized key. -/
theorem C8_config_resolution_witness :
    ((resolveConfig (fun t => if t = "7" then (7 : ℚ) else 0)
        [("foo", "1"), ("w", "3"), ("w", "7")]).1.w
      = (match lastVal "w" [("foo", "1"), ("w", "3"), ("w", "7")] with
         | some v => (fun t => if t = "7" then (7 : ℚ) else 0) v
         | none => (0 : ℚ))) ∧
    (("Unknown key: " ++ ("foo", "1").1)
        ∈ (resolveConfig (fun t => if t = "7" then (7 : ℚ) else 0)
            [("foo", "1"), ("w", "3"), ("w", "7")]).2 ∧
      ∀ p : Config × List String,
        resolveStep (fun t => if t = "7" then (7 : ℚ) else 0) p ("foo", "1")
          = (p.1, p.2 ++ ["Unknown key: " ++ ("foo", "1").1])) :=
  ⟨(C8_config_resolution (fun t => if t = "7" then (7 : ℚ) else 0)
      [("foo", "1"), ("w", "3"), ("w", "7")]).1,
    (C8_config_resolution (fun t => if t = "7" then (7 : ℚ) else 0)
        [("foo", "1"), ("w", "3"), ("w", "7")]).2.2.2.2.2.2 ("foo", "1")
      (by decide) (by decide)⟩

/-- C9: whenever the resolved logging interval is zero and the resolved
iteration count is non negative (so the loop body runs at least once),
the run is undefined: the first loop pass evaluates i modulo 0, which the
model reports as none. -/
theorem C9_log_every_zero_mod_ub (atof : String → ℚ)
    (pairs : List (ℤ × ℤ)) (settings : Option (List (String × String)))
    (hev : (resolveOpt atof settings).1.every = 0)
    (hit : 0 ≤ (resolveOpt atof settings).1.iterations) :
    runModel atof pairs settings = none := by
  obtain ⟨m, hm⟩ :
      ∃ m, ((resolveOpt atof settings).1.iterations + 1).toNat = m + 1 :=
    ⟨((resolveOpt atof settings).1.iterations + 1).toNat - 1, by omega⟩
  simp only [runModel, train]
  rw [hm]
  simp only [trainGo, if_pos hev]

/-- C9 witness at a concrete input reachable from the public interface. -/
theorem C9_log_every_zero_mod_ub_witness :
    ((resolveOpt (fun _ => (0 : ℚ)) (some [("log-every", "0")])).1.every = 0) ∧
    (0 ≤ (resolveOpt (fun _ => (0 : ℚ)) (some [("log-every", "0")])).1.iterations) ∧
    runModel (fun _ => (0 : ℚ)) [(1, 2)] (some [("log-every", "0")]) = none :=
  ⟨by decide, by decide,
    C9_log_every_zero_mod_ub (fun _ => (0 : ℚ)) [(1, 2)]
      (some [("log-every", "0")]) (by decide) (by decide)⟩

/-- C10: whenever the resolved iteration count is negative, the loop body
never runs: the run exits with 0, emits no record, and the final weights
are the configured initial ones. -/
theorem C10_negative_iterations_noop (atof : String → ℚ)
    (pairs : List (ℤ × ℤ)) (settings : Option (List (String × String)))
    (hit : (resolveOpt atof settings).1.iterations < 0) :
    runModel atof pairs settings
      = some ⟨0, [], (resolveOpt atof settings).2,
          ⟨(resolveOpt atof settings).1.w,
            (resolveOpt atof settings).1.b⟩⟩ := by
  have hm : ((resolveOpt atof settings).1.iterations + 1).toNat = 0 := by
    omega
  simp only [runModel, train]
  rw [hm]
  simp [trainGo]

/-- C10 witness at a concrete input. -/
theorem C10_negative_iterations_noop_witness :
    ((resolveOpt (fun _ => (-1 : ℚ)) (some [("iterations", "-1")])).1.iterations < 0) ∧
    runModel (fun _ => (-1 : ℚ)) [(1, 2)] (some [("iterations", "-1")])
      = some ⟨0, [],
          (resolveOpt (fun _ => (-1 : ℚ)) (some [("iterations", "-1")])).2,
          ⟨(resolveOpt (fun _ => (-1 : ℚ)) (some [("iterations", "-1")])).1.w,
            (resolveOpt (fun _ => (-1 : ℚ)) (some [("iterations", "-1")])).1.b⟩⟩ :=
  ⟨by decide,
    C10_negative_iterations_noop (fun _ => (-1 : ℚ)) [(1, 2)]
      (some [("iterations", "-1")]) (by decide)⟩

end ULR

